import Mathlib

/-
Shallow embedding of the pz-pack container codec (src/pz-pack/src/lib.rs) and
of the pz-pack-tool entry validator / config mapping (src/pz-pack-tool/src/main.rs).

Byte streams are `List Nat` (each element one byte); readers consume a stream
and return `Option (value × rest)`, `none` modelling an `Err` return.  Machine
`u32` values are `Nat` taken mod 2^32 = 4294967296 where the code casts
(`as u32`); `i32` values are `Int` in two's complement on the wire.  The
external image codec (the `image` crate) is not code of this crate: per the
specification it is an external collaborator, so the page and pack readers and
writers are parameterised over an abstract `enc`/`dec` pair for the embedded
bitmap payload.  `Option` return values model Rust `Result`/panics: `none` is
an error or panic, `some` a successful return.
-/

/-- The four little-endian bytes of a `u32` value, as `u32::to_le_bytes`
(and `write_u32::<LE>`) produces them.  Taking each component mod 256 makes
this agree with the Rust `as u32` truncation at every call site. -/
def leBytes4 (n : Nat) : List Nat :=
  [n % 256, n / 256 % 256, n / 65536 % 256, n / 16777216 % 256]

/-- Recombine four little-endian bytes into the `u32` value they denote. -/
def leU32 (b0 b1 b2 b3 : Nat) : Nat :=
  b0 + 256 * b1 + 65536 * b2 + 16777216 * b3

/-- `read_u32::<LE>`: consume four bytes, little-endian; `Err` on a shorter stream. -/
def readU32 : List Nat → Option (Nat × List Nat)
  | b0 :: b1 :: b2 :: b3 :: rest => some (leU32 b0 b1 b2 b3, rest)
  | _ => none

/-- `write_u32::<LE>(n as u32)`. -/
def writeU32 (n : Nat) : List Nat := leBytes4 n

/-- Reinterpret a `u32` bit pattern as the signed `i32` it encodes. -/
def i32OfU32 (n : Nat) : Int :=
  if n < 2147483648 then (n : Int) else (n : Int) - 4294967296

/-- The `u32` bit pattern (two's complement) of a signed `i32` value. -/
def u32OfI32 (m : Int) : Nat := (m % 4294967296).toNat

/-- `read_i32::<LE>`. -/
def readI32 (s : List Nat) : Option (Int × List Nat) :=
  match readU32 s with
  | none => none
  | some (n, rest) => some (i32OfU32 n, rest)

/-- `write_i32::<LE>`. -/
def writeI32 (m : Int) : List Nat := writeU32 (u32OfI32 m)

/-- A UTF-8 continuation byte, `0x80 ..= 0xBF`. -/
def isCont (b : Nat) : Bool := 128 ≤ b && b ≤ 191

/-- Strict UTF-8 validity of a byte sequence, as `Read::read_to_string`
enforces it (well-formed sequences only: no overlong forms, no surrogates,
no code points above U+10FFFF, no truncated trailing sequence). -/
def isValidUtf8 : List Nat → Bool
  | [] => true
  | b :: r =>
    if b ≤ 127 then isValidUtf8 r
    else if 194 ≤ b && b ≤ 223 then
      match r with
      | c1 :: r1 => isCont c1 && isValidUtf8 r1
      | [] => false
    else if b = 224 then
      match r with
      | c1 :: c2 :: r2 => (160 ≤ c1 && c1 ≤ 191) && isCont c2 && isValidUtf8 r2
      | _ => false
    else if (225 ≤ b && b ≤ 236) || b = 238 || b = 239 then
      match r with
      | c1 :: c2 :: r2 => isCont c1 && isCont c2 && isValidUtf8 r2
      | _ => false
    else if b = 237 then
      match r with
      | c1 :: c2 :: r2 => (128 ≤ c1 && c1 ≤ 159) && isCont c2 && isValidUtf8 r2
      | _ => false
    else if b = 240 then
      match r with
      | c1 :: c2 :: c3 :: r3 => (144 ≤ c1 && c1 ≤ 191) && isCont c2 && isCont c3 && isValidUtf8 r3
      | _ => false
    else if 241 ≤ b && b ≤ 243 then
      match r with
      | c1 :: c2 :: c3 :: r3 => isCont c1 && isCont c2 && isCont c3 && isValidUtf8 r3
      | _ => false
    else if b = 244 then
      match r with
      | c1 :: c2 :: c3 :: r3 => (128 ≤ c1 && c1 ≤ 143) && isCont c2 && isCont c3 && isValidUtf8 r3
      | _ => false
    else false

/-- `write_string`: a `u32` little-endian length prefix (`s.len() as u32`)
followed by the string's bytes. -/
def write_string (s : List Nat) : List Nat := writeU32 s.length ++ s

/-- `read_string`: read the `u32` length prefix, then
`reader.take(len).read_to_string(..)` — which reads *at most* `len` bytes,
stopping silently at end of stream, and fails only when the bytes read are
not valid UTF-8. -/
def read_string (s : List Nat) : Option (List Nat × List Nat) :=
  match readU32 s with
  | none => none
  | some (len, r) =>
    if isValidUtf8 (r.take len) then some (r.take len, r.drop len) else none

/-- `write_buffer`: `u32` length prefix, then the raw bytes. -/
def write_buffer (b : List Nat) : List Nat := writeU32 b.length ++ b

/-- `read_buffer`: read the `u32` length prefix, then
`reader.take(len).read_to_end(..)` — at most `len` bytes, no length check. -/
def read_buffer (s : List Nat) : Option (List Nat × List Nat) :=
  match readU32 s with
  | none => none
  | some (len, r) => some (r.take len, r.drop len)

/-- `END_OF_IMAGE = u32::to_le_bytes(0xDEADBEEF)` = `[0xEF, 0xBE, 0xAD, 0xDE]`. -/
def END_OF_IMAGE : List Nat := [239, 190, 173, 222]

/-- `MAGIC_BYTES = *b"PZPK"`. -/
def MAGIC_BYTES : List Nat := [80, 90, 80, 75]

/-- The loop of `read_until_pattern`: if the accumulated buffer ends with the
pattern, return it with the pattern stripped (`strip_suffix`); otherwise read
one more byte (`Err` at end of stream) and continue. -/
def readUntilPatternAux (pat : List Nat) : List Nat → List Nat → Option (List Nat × List Nat)
  | buf, [] =>
    if pat <:+ buf then some (buf.take (buf.length - pat.length), []) else none
  | buf, b :: rest =>
    if pat <:+ buf then some (buf.take (buf.length - pat.length), b :: rest)
    else readUntilPatternAux pat (buf ++ [b]) rest

/-- `read_until_pattern`: scan byte by byte until the buffer ends with `pat`. -/
def read_until_pattern (pat s : List Nat) : Option (List Nat × List Nat) :=
  readUntilPatternAux pat [] s

/-- No prefix of `body ++ pat` shorter than the whole of it already ends with
`pat`: the terminator pattern does not occur early in the scanned bytes. -/
def noEarlyTerminator (pat body : List Nat) : Prop :=
  ∀ k, k < body.length + pat.length → ¬ pat <:+ (body ++ pat).take k

/-- One RGBA pixel, four 8-bit channels. -/
structure Rgba where
  r : Nat
  g : Nat
  b : Nat
  a : Nat
deriving DecidableEq

/-- An `RgbaImage`: explicit dimensions plus a row-major pixel buffer. -/
structure Image where
  width : Nat
  height : Nat
  data : List Rgba
deriving DecidableEq

/-- `get_pixel` on the row-major buffer (out-of-range reads default to a
zeroed pixel; they never arise on in-bounds accesses of well-formed images). -/
def Image.getPixel (i : Image) (x y : Nat) : Rgba :=
  i.data.getD (y * i.width + x) ⟨0, 0, 0, 0⟩

/-- `RgbaImage::from_pixel`: a `w × h` image filled with one pixel. -/
def Image.fromPixel (w h : Nat) (c : Rgba) : Image :=
  ⟨w, h, List.replicate (w * h) c⟩

/-- `imageops::crop_imm`: a view of `base` at `(x, y)` of size `w × h`,
with the rectangle clamped to the image bounds exactly as `crop_dimensions`
does. -/
def cropImm (base : Image) (x y w h : Nat) : Image :=
  let x2 := min x base.width
  let y2 := min y base.height
  let w2 := min w (base.width - x2)
  let h2 := min h (base.height - y2)
  ⟨w2, h2, (List.range (w2 * h2)).map fun i =>
    base.getPixel (x2 + i % w2) (y2 + i / w2)⟩

/-- `GenericImage::copy_from(src, x, y)`: fails (`Err`, hence a panic under
`unwrap`) unless `src` placed at `(x, y)` fits inside `dst`; otherwise every
pixel of `src` overwrites the corresponding pixel of `dst`. -/
def Image.copyFrom (dst src : Image) (x y : Nat) : Option Image :=
  if src.width + x ≤ dst.width ∧ src.height + y ≤ dst.height then
    some ⟨dst.width, dst.height, (List.range (dst.width * dst.height)).map fun i =>
      let px := i % dst.width
      let py := i / dst.width
      if x ≤ px ∧ px < x + src.width ∧ y ≤ py ∧ py < y + src.height then
        src.getPixel (px - x) (py - y)
      else dst.getPixel px py⟩
  else none

/-- An entry within a page (`pz_pack::Entry`). -/
structure Entry where
  name : List Nat
  x_pos : Nat
  y_pos : Nat
  width : Nat
  height : Nat
  x_offset : Nat
  y_offset : Nat
  total_width : Nat
  total_height : Nat
deriving DecidableEq

/-- `Entry::get_image`: allocate a fully transparent `total_width ×
total_height` canvas, crop the packed rectangle out of the atlas, and copy it
in at the frame offset.  The `unwrap` on `copy_from` is modelled by the
`Option`: `none` is the panic. -/
def Entry.get_image (e : Entry) (base : Image) : Option Image :=
  let out := Image.fromPixel e.total_width e.total_height ⟨0, 0, 0, 0⟩
  let view := cropImm base e.x_pos e.y_pos e.width e.height
  out.copyFrom view e.x_offset e.y_offset

/-- `Entry::read`: length-prefixed name, then eight `u32` fields in order. -/
def Entry.read (s : List Nat) : Option (Entry × List Nat) :=
  match read_string s with
  | none => none
  | some (name, s1) =>
    match readU32 s1 with
    | none => none
    | some (xp, s2) =>
      match readU32 s2 with
      | none => none
      | some (yp, s3) =>
        match readU32 s3 with
        | none => none
        | some (w, s4) =>
          match readU32 s4 with
          | none => none
          | some (h, s5) =>
            match readU32 s5 with
            | none => none
            | some (xo, s6) =>
              match readU32 s6 with
              | none => none
              | some (yo, s7) =>
                match readU32 s7 with
                | none => none
                | some (tw, s8) =>
                  match readU32 s8 with
                  | none => none
                  | some (th, s9) =>
                    some (⟨name, xp, yp, w, h, xo, yo, tw, th⟩, s9)

/-- `Entry::write`: the name then the eight `u32` fields. -/
def Entry.write (e : Entry) : List Nat :=
  write_string e.name ++
  writeU32 e.x_pos ++ writeU32 e.y_pos ++ writeU32 e.width ++ writeU32 e.height ++
  writeU32 e.x_offset ++ writeU32 e.y_offset ++ writeU32 e.total_width ++ writeU32 e.total_height

/-- A page within a pack file (`pz_pack::Page`). -/
structure Page where
  name : List Nat
  mask : Int
  entries : List Entry
  image : Image
deriving DecidableEq

/-- `Page::DEFAULT_MASK = 1`. -/
def Page.DEFAULT_MASK : Int := 1

/-- `Page::new`. -/
def Page.new (name : List Nat) (entries : List Entry) (image : Image) : Page :=
  ⟨name, Page.DEFAULT_MASK, entries, image⟩

/-- `Page::get_entry_image`: `self.entries.get(index).map(|e| e.get_image(&self.image))`.
The outer `Option` is the `Option` the method returns; the inner one models
the potential panic inside `get_image`. -/
def Page.get_entry_image (p : Page) (index : Nat) : Option (Option Image) :=
  (p.entries[index]?).map fun e => e.get_image p.image

/-- `(0..entries_len).map(|_| Entry::read(..)).collect()`. -/
def readEntries : Nat → List Nat → Option (List Entry × List Nat)
  | 0, s => some ([], s)
  | n + 1, s =>
    match Entry.read s with
    | none => none
    | some (e, s1) =>
      match readEntries n s1 with
      | none => none
      | some (es, s2) => some (e :: es, s2)

/-- `Page::read_v1`: name, entry count, mask, entries, then the image bytes
scanned up to the `END_OF_IMAGE` terminator and handed to the external
decoder `dec`. -/
def Page.read_v1 (dec : List Nat → Option Image) (s : List Nat) : Option (Page × List Nat) :=
  match read_string s with
  | none => none
  | some (name, s1) =>
    match readU32 s1 with
    | none => none
    | some (entriesLen, s2) =>
      match readI32 s2 with
      | none => none
      | some (mask, s3) =>
        match readEntries entriesLen s3 with
        | none => none
        | some (entries, s4) =>
          match read_until_pattern END_OF_IMAGE s4 with
          | none => none
          | some (imageBuf, s5) =>
            match dec imageBuf with
            | none => none
            | some image => some (⟨name, mask, entries, image⟩, s5)

/-- `Page::read_v2`: as `read_v1` but the image bytes carry an explicit
length prefix (`read_buffer`). -/
def Page.read_v2 (dec : List Nat → Option Image) (s : List Nat) : Option (Page × List Nat) :=
  match read_string s with
  | none => none
  | some (name, s1) =>
    match readU32 s1 with
    | none => none
    | some (entriesLen, s2) =>
      match readI32 s2 with
      | none => none
      | some (mask, s3) =>
        match readEntries entriesLen s3 with
        | none => none
        | some (entries, s4) =>
          match read_buffer s4 with
          | none => none
          | some (imageBuf, s5) =>
            match dec imageBuf with
            | none => none
            | some image => some (⟨name, mask, entries, image⟩, s5)

/-- `Page::write_v1`: name, `entries.len() as u32`, mask, entries, the
externally encoded image bytes, then the `END_OF_IMAGE` terminator. -/
def Page.write_v1 (enc : Image → List Nat) (p : Page) : List Nat :=
  write_string p.name ++ writeU32 p.entries.length ++ writeI32 p.mask ++
  (p.entries.map Entry.write).flatten ++ enc p.image ++ END_OF_IMAGE

/-- `Page::write_v2`: as `write_v1` but the encoded image is framed by
`write_buffer` instead of the terminator. -/
def Page.write_v2 (enc : Image → List Nat) (p : Page) : List Nat :=
  write_string p.name ++ writeU32 p.entries.length ++ writeI32 p.mask ++
  (p.entries.map Entry.write).flatten ++ write_buffer (enc p.image)

/-- The full contents of a pack file (`pz_pack::Pack`). -/
structure Pack where
  mask : Int
  pages : List Page
deriving DecidableEq

/-- `Pack::DEFAULT_MASK = 1`. -/
def Pack.DEFAULT_MASK : Int := 1

/-- `Pack::new`. -/
def Pack.new (pages : List Page) : Pack := ⟨Pack.DEFAULT_MASK, pages⟩

/-- `(0..pages_len).map(|_| read_page(..)).collect()`, for either variant's
page reader. -/
def readPages (rp : List Nat → Option (Page × List Nat)) :
    Nat → List Nat → Option (List Page × List Nat)
  | 0, s => some ([], s)
  | n + 1, s =>
    match rp s with
    | none => none
    | some (p, s1) =>
      match readPages rp n s1 with
      | none => none
      | some (ps, s2) => some (p :: ps, s2)

/-- `Pack::read_v1`: page count, then that many V1 pages; the pack mask is
synthesised as `DEFAULT_MASK`. -/
def Pack.read_v1 (dec : List Nat → Option Image) (s : List Nat) : Option (Pack × List Nat) :=
  match readU32 s with
  | none => none
  | some (pagesLen, s1) =>
    match readPages (Page.read_v1 dec) pagesLen s1 with
    | none => none
    | some (pages, s2) => some (⟨Pack.DEFAULT_MASK, pages⟩, s2)

/-- `Pack::read_v2`: mask, page count, then that many V2 pages. -/
def Pack.read_v2 (dec : List Nat → Option Image) (s : List Nat) : Option (Pack × List Nat) :=
  match readI32 s with
  | none => none
  | some (mask, s1) =>
    match readU32 s1 with
    | none => none
    | some (pagesLen, s2) =>
      match readPages (Page.read_v2 dec) pagesLen s2 with
      | none => none
      | some (pages, s3) => some (⟨mask, pages⟩, s3)

/-- `Pack::read`: consume four bytes (`read_exact`, `Err` on a shorter
stream); if they are the magic bytes the rest is V2, otherwise the reader is
rebuilt as those four bytes chained with the remaining stream and read as V1. -/
def Pack.read (dec : List Nat → Option Image) (s : List Nat) : Option (Pack × List Nat) :=
  if s.length < 4 then none
  else
    let magicBytes := s.take 4
    let rest := s.drop 4
    if magicBytes = MAGIC_BYTES then Pack.read_v2 dec rest
    else Pack.read_v1 dec (magicBytes ++ rest)

/-- `FormatVersion`. -/
inductive FormatVersion
  | V1
  | V2
deriving DecidableEq

/-- `Pack::write_v1`: `pages.len() as u32`, then the V1 pages. -/
def Pack.write_v1 (enc : Image → List Nat) (p : Pack) : List Nat :=
  writeU32 p.pages.length ++ (p.pages.map (Page.write_v1 enc)).flatten

/-- `Pack::write_v2`: magic bytes, mask, `pages.len() as u32`, then the V2 pages. -/
def Pack.write_v2 (enc : Image → List Nat) (p : Pack) : List Nat :=
  MAGIC_BYTES ++ writeI32 p.mask ++ writeU32 p.pages.length ++
  (p.pages.map (Page.write_v2 enc)).flatten

/-- `Pack::write_with`: dispatch on the requested format version. -/
def Pack.write_with (enc : Image → List Nat) (p : Pack) : FormatVersion → List Nat
  | FormatVersion.V1 => Pack.write_v1 enc p
  | FormatVersion.V2 => Pack.write_v2 enc p

/-- Component-wise wrapping `u32` addition, the release-mode semantics of
`glam::UVec2` addition. -/
def u32add (a b : Nat) : Nat := (a + b) % 4294967296

/-- `EntryConfigFrame` (pz-pack-tool): explicit frame geometry of a config entry. -/
structure EntryConfigFrame where
  offset : Nat × Nat
  size : Nat × Nat
deriving DecidableEq

/-- `EntryConfig` (pz-pack-tool): one externally supplied entry record. -/
structure EntryConfig where
  pos : Nat × Nat
  size : Nat × Nat
  frame : Option EntryConfigFrame
deriving DecidableEq

/-- The two validation errors of pz-pack-tool's `Error` enum that
`EntryConfig::into_entry` can raise. -/
inductive ToolError
  | SubImageTooBig (name : List Nat) (size atlasSize : Nat × Nat)
  | FrameTooSmall (name : List Nat) (frameSize size : Nat × Nat)
deriving DecidableEq

/-- `EntryConfig::into_entry`: default the frame to `{offset: (0,0), size:
size}` when absent, reject with `SubImageTooBig` when `size == UVec2::ZERO`
or `image_size.cmplt(pos + size).any()`, reject with `FrameTooSmall` when
`frame.size == UVec2::ZERO` or `size.cmpgt(frame.offset + frame.size).any()`,
otherwise build the `Entry`. -/
def EntryConfig.into_entry (c : EntryConfig) (name : List Nat) (image : Image) :
    Except ToolError Entry :=
  let imageSize : Nat × Nat := (image.width, image.height)
  let frame := c.frame.getD ⟨(0, 0), c.size⟩
  if c.size = (0, 0) ∨ imageSize.1 < u32add c.pos.1 c.size.1 ∨
      imageSize.2 < u32add c.pos.2 c.size.2 then
    Except.error (ToolError.SubImageTooBig name c.size imageSize)
  else if frame.size = (0, 0) ∨ u32add frame.offset.1 frame.size.1 < c.size.1 ∨
      u32add frame.offset.2 frame.size.2 < c.size.2 then
    Except.error (ToolError.FrameTooSmall name frame.size c.size)
  else
    Except.ok ⟨name, c.pos.1, c.pos.2, c.size.1, c.size.2,
      frame.offset.1, frame.offset.2, frame.size.1, frame.size.2⟩

/-- `EntryConfig::from_entry`: re-render an `Entry` as a config record; the
frame is emitted only when `frame_offset != pos && frame_size != size`. -/
def EntryConfig.from_entry (e : Entry) : List Nat × EntryConfig :=
  let pos : Nat × Nat := (e.x_pos, e.y_pos)
  let size : Nat × Nat := (e.width, e.height)
  let frameOffset : Nat × Nat := (e.x_offset, e.y_offset)
  let frameSize : Nat × Nat := (e.total_width, e.total_height)
  let frame :=
    if frameOffset ≠ pos ∧ frameSize ≠ size then
      some (⟨frameOffset, frameSize⟩ : EntryConfigFrame)
    else none
  (e.name, ⟨pos, size, frame⟩)

/-- Well-formedness of an `Entry` as a Rust value: every `u32` field is in
range and the name is a Rust `String` (UTF-8, length representable). -/
def EntryWF (e : Entry) : Prop :=
  e.name.length < 4294967296 ∧ isValidUtf8 e.name = true ∧
  e.x_pos < 4294967296 ∧ e.y_pos < 4294967296 ∧
  e.width < 4294967296 ∧ e.height < 4294967296 ∧
  e.x_offset < 4294967296 ∧ e.y_offset < 4294967296 ∧
  e.total_width < 4294967296 ∧ e.total_height < 4294967296

/-- The value range of a Rust `i32`. -/
def I32Range (m : Int) : Prop := -2147483648 ≤ m ∧ m < 2147483648

/-- Well-formedness of a `Page` as a Rust value. -/
def PageWF (p : Page) : Prop :=
  p.name.length < 4294967296 ∧ isValidUtf8 p.name = true ∧ I32Range p.mask ∧
  p.entries.length < 4294967296 ∧ ∀ e ∈ p.entries, EntryWF e

/-- Well-formedness of a `Pack` as a Rust value. -/
def PackWF (p : Pack) : Prop :=
  I32Range p.mask ∧ p.pages.length < 4294967296 ∧ ∀ pg ∈ p.pages, PageWF pg

/-- The Entry invariants of the specification, against a given atlas: the
packed rectangle is non-empty and inside the atlas, and the frame is
non-empty and contains the packed rectangle at its offset. -/
def EntryValid (e : Entry) (base : Image) : Prop :=
  0 < e.width ∧ 0 < e.height ∧
  e.x_pos + e.width ≤ base.width ∧ e.y_pos + e.height ≤ base.height ∧
  0 < e.total_width ∧ 0 < e.total_height ∧
  e.x_offset + e.width ≤ e.total_width ∧ e.y_offset + e.height ≤ e.total_height

/-- Parse a flat byte list into 4-byte RGBA pixels (test codec helper). -/
def pixelsOf : List Nat → List Rgba
  | r :: g :: b :: a :: rest => ⟨r, g, b, a⟩ :: pixelsOf rest
  | _ => []

/-- A concrete executable image encoder used to instantiate the abstract
external codec in witnesses: dimensions then raw RGBA bytes. -/
def encTest (i : Image) : List Nat :=
  writeU32 i.width ++ writeU32 i.height ++
  (i.data.map fun p => [p.r % 256, p.g % 256, p.b % 256, p.a % 256]).flatten

/-- The matching concrete decoder for `encTest`. -/
def decTest (s : List Nat) : Option Image :=
  match readU32 s with
  | none => none
  | some (w, s1) =>
    match readU32 s1 with
    | none => none
    | some (h, s2) => some ⟨w, h, pixelsOf s2⟩

instance {ε α : Type} [DecidableEq ε] [DecidableEq α] : DecidableEq (Except ε α) := fun a b =>
  match a, b with
  | Except.ok x, Except.ok y => decidable_of_iff (x = y) (by simp)
  | Except.error x, Except.error y => decidable_of_iff (x = y) (by simp)
  | Except.ok _, Except.error _ => isFalse (by simp)
  | Except.error _, Except.ok _ => isFalse (by simp)

/-- A 1×1 test image. -/
def img1 : Image := ⟨1, 1, [⟨10, 20, 30, 40⟩]⟩

/-- A test entry occupying all of `img1`. -/
def entry1 : Entry := ⟨[98], 0, 0, 1, 1, 0, 0, 1, 1⟩

/-- A test page with a negative mask. -/
def page1 : Page := ⟨[97], -2, [entry1], img1⟩

/-- A test pack with the default container mask. -/
def pack1 : Pack := ⟨1, [page1]⟩

/-- A 2×2 test atlas with four distinct pixels. -/
def atlas4 : Image :=
  ⟨2, 2, [⟨1, 1, 1, 1⟩, ⟨2, 2, 2, 2⟩, ⟨3, 3, 3, 3⟩, ⟨4, 4, 4, 4⟩]⟩

/-- A test entry satisfying the Entry invariants against `atlas4`. -/
def entry4 : Entry := ⟨[], 1, 1, 1, 1, 1, 0, 2, 1⟩

theorem readU32_writeU32 (n : Nat) (r : List Nat) (h : n < 4294967296) :
    readU32 (writeU32 n ++ r) = some (n, r) := by
  simp only [writeU32, leBytes4, List.cons_append, List.nil_append, readU32, leU32,
    Option.some.injEq, Prod.mk.injEq, and_true]
  omega

theorem readI32_writeI32 (m : Int) (r : List Nat) (h : I32Range m) :
    readI32 (writeI32 m ++ r) = some (m, r) := by
  obtain ⟨h1, h2⟩ := h
  have hn : u32OfI32 m < 4294967296 := by unfold u32OfI32; omega
  rw [writeI32, readI32, readU32_writeU32 _ _ hn]
  simp only [Option.some.injEq, Prod.mk.injEq, and_true]
  unfold i32OfU32 u32OfI32
  split <;> omega

theorem read_string_write_string (s r : List Nat) (hlen : s.length < 4294967296)
    (hutf : isValidUtf8 s = true) :
    read_string (write_string s ++ r) = some (s, r) := by
  rw [write_string, List.append_assoc, read_string, readU32_writeU32 _ _ hlen]
  simp [List.take_left, List.drop_left, hutf]

theorem read_buffer_write_buffer (b r : List Nat) (hlen : b.length < 4294967296) :
    read_buffer (write_buffer b ++ r) = some (b, r) := by
  rw [write_buffer, List.append_assoc, read_buffer, readU32_writeU32 _ _ hlen]
  simp [List.take_left, List.drop_left]

theorem Entry.read_write (e : Entry) (r : List Nat) (h : EntryWF e) :
    Entry.read (Entry.write e ++ r) = some (e, r) := by
  obtain ⟨h1, h2, h3, h4, h5, h6, h7, h8, h9, h10⟩ := h
  rw [Entry.write]
  simp only [List.append_assoc]
  simp only [Entry.read, read_string_write_string _ _ h1 h2,
    readU32_writeU32 _ _ h3, readU32_writeU32 _ _ h4, readU32_writeU32 _ _ h5,
    readU32_writeU32 _ _ h6, readU32_writeU32 _ _ h7, readU32_writeU32 _ _ h8,
    readU32_writeU32 _ _ h9, readU32_writeU32 _ _ h10]

theorem readEntries_write (es : List Entry) (r : List Nat) (h : ∀ e ∈ es, EntryWF e) :
    readEntries es.length ((es.map Entry.write).flatten ++ r) = some (es, r) := by
  induction es generalizing r with
  | nil => simp [readEntries]
  | cons e es ih =>
    simp only [List.map_cons, List.flatten_cons, List.length_cons, List.append_assoc]
    simp only [readEntries, Entry.read_write e _ (h e (by simp)),
      ih _ (fun e' he' => h e' (by simp [he']))]

theorem readUntilPatternAux_complete (pat : List Nat) :
    ∀ (u buf r : List Nat),
      (∀ k, k < u.length → ¬ pat <:+ buf ++ u.take k) →
      pat <:+ buf ++ u →
      readUntilPatternAux pat buf (u ++ r) =
        some ((buf ++ u).take ((buf ++ u).length - pat.length), r) := by
  intro u
  induction u with
  | nil =>
    intro buf r hno hsuf
    simp only [List.append_nil] at hsuf ⊢
    cases r with
    | nil => simp [readUntilPatternAux, hsuf]
    | cons b t => simp [readUntilPatternAux, hsuf]
  | cons b u ih =>
    intro buf r hno hsuf
    have h0 : ¬ pat <:+ buf := by
      have := hno 0 (by simp)
      simpa using this
    simp only [List.cons_append]
    rw [readUntilPatternAux, if_neg h0]
    have hno' : ∀ k, k < u.length → ¬ pat <:+ (buf ++ [b]) ++ u.take k := by
      intro k hk
      have := hno (k + 1) (by simp; omega)
      simpa [List.take_succ_cons, List.append_assoc, List.singleton_append] using this
    have hsuf' : pat <:+ (buf ++ [b]) ++ u := by
      simpa [List.append_assoc, List.singleton_append] using hsuf
    have := ih (buf ++ [b]) r hno' hsuf'
    rw [this]
    simp [List.append_assoc, List.singleton_append]

theorem read_until_pattern_complete (pat v r : List Nat)
    (h : noEarlyTerminator pat v) :
    read_until_pattern pat (v ++ (pat ++ r)) = some (v, r) := by
  unfold read_until_pattern
  have hmain := readUntilPatternAux_complete pat (v ++ pat) [] r ?hno ?hsuf
  case hno =>
    intro k hk
    have := h k (by simpa [List.length_append] using hk)
    simpa using this
  case hsuf =>
    simp only [List.nil_append]
    exact List.suffix_append v pat
  rw [List.append_assoc] at hmain
  rw [hmain]
  simp only [List.nil_append, List.length_append, Nat.add_sub_cancel, List.take_left]

theorem page_roundtrip_v2 (enc : Image → List Nat) (dec : List Nat → Option Image)
    (p : Page) (r : List Nat) (hwf : PageWF p)
    (hc : dec (enc p.image) = some p.image)
    (hl : (enc p.image).length < 4294967296) :
    Page.read_v2 dec (Page.write_v2 enc p ++ r) = some (p, r) := by
  obtain ⟨h1, h2, h3, h4, h5⟩ := hwf
  rw [Page.write_v2]
  simp only [List.append_assoc]
  simp only [Page.read_v2, read_string_write_string _ _ h1 h2,
    readU32_writeU32 _ _ h4, readI32_writeI32 _ _ h3,
    readEntries_write _ _ h5, read_buffer_write_buffer _ _ hl, hc]

theorem page_roundtrip_v1 (enc : Image → List Nat) (dec : List Nat → Option Image)
    (p : Page) (r : List Nat) (hwf : PageWF p)
    (hc : dec (enc p.image) = some p.image)
    (ht : noEarlyTerminator END_OF_IMAGE (enc p.image)) :
    Page.read_v1 dec (Page.write_v1 enc p ++ r) = some (p, r) := by
  obtain ⟨h1, h2, h3, h4, h5⟩ := hwf
  rw [Page.write_v1]
  simp only [List.append_assoc]
  simp only [Page.read_v1, read_string_write_string _ _ h1 h2,
    readU32_writeU32 _ _ h4, readI32_writeI32 _ _ h3,
    readEntries_write _ _ h5, read_until_pattern_complete _ _ _ ht, hc]

theorem readPages_write_v2 (enc : Image → List Nat) (dec : List Nat → Option Image)
    (ps : List Page) (r : List Nat) (hwf : ∀ p ∈ ps, PageWF p)
    (hc : ∀ p ∈ ps, dec (enc p.image) = some p.image)
    (hl : ∀ p ∈ ps, (enc p.image).length < 4294967296) :
    readPages (Page.read_v2 dec) ps.length ((ps.map (Page.write_v2 enc)).flatten ++ r) =
      some (ps, r) := by
  induction ps generalizing r with
  | nil => simp [readPages]
  | cons p ps ih =>
    simp only [List.map_cons, List.flatten_cons, List.length_cons, List.append_assoc]
    simp only [readPages,
      page_roundtrip_v2 enc dec p _ (hwf p (by simp)) (hc p (by simp)) (hl p (by simp)),
      ih _ (fun q hq => hwf q (by simp [hq])) (fun q hq => hc q (by simp [hq]))
        (fun q hq => hl q (by simp [hq]))]

theorem readPages_write_v1 (enc : Image → List Nat) (dec : List Nat → Option Image)
    (ps : List Page) (r : List Nat) (hwf : ∀ p ∈ ps, PageWF p)
    (hc : ∀ p ∈ ps, dec (enc p.image) = some p.image)
    (ht : ∀ p ∈ ps, noEarlyTerminator END_OF_IMAGE (enc p.image)) :
    readPages (Page.read_v1 dec) ps.length ((ps.map (Page.write_v1 enc)).flatten ++ r) =
      some (ps, r) := by
  induction ps generalizing r with
  | nil => simp [readPages]
  | cons p ps ih =>
    simp only [List.map_cons, List.flatten_cons, List.length_cons, List.append_assoc]
    simp only [readPages,
      page_roundtrip_v1 enc dec p _ (hwf p (by simp)) (hc p (by simp)) (ht p (by simp)),
      ih _ (fun q hq => hwf q (by simp [hq])) (fun q hq => hc q (by simp [hq]))
        (fun q hq => ht q (by simp [hq]))]

theorem Pack.read_magic (dec : List Nat → Option Image) (rest : List Nat) :
    Pack.read dec (MAGIC_BYTES ++ rest) = Pack.read_v2 dec rest := by
  have hlen : ¬ (MAGIC_BYTES ++ rest).length < 4 := by simp [MAGIC_BYTES]
  have ht : (MAGIC_BYTES ++ rest).take 4 = MAGIC_BYTES := rfl
  have hd : (MAGIC_BYTES ++ rest).drop 4 = rest := rfl
  rw [Pack.read, if_neg hlen]
  simp only [ht, hd]
  simp

theorem leBytes4_magic (n : Nat) (h : n < 4294967296) (he : leBytes4 n = MAGIC_BYTES) :
    n = 1263557200 := by
  simp only [leBytes4, MAGIC_BYTES, List.cons.injEq, and_true] at he
  omega

theorem Pack.read_leBytes4 (dec : List Nat → Option Image) (n : Nat) (rest : List Nat)
    (h : leBytes4 n ≠ MAGIC_BYTES) :
    Pack.read dec (leBytes4 n ++ rest) = Pack.read_v1 dec (leBytes4 n ++ rest) := by
  have hlen : ¬ (leBytes4 n ++ rest).length < 4 := by simp [leBytes4]
  have ht : (leBytes4 n ++ rest).take 4 = leBytes4 n := rfl
  have hd : (leBytes4 n ++ rest).drop 4 = rest := rfl
  rw [Pack.read, if_neg hlen]
  simp only [ht, hd, if_neg h]

theorem pack_roundtrip_v2 (enc : Image → List Nat) (dec : List Nat → Option Image)
    (pack : Pack) (hwf : PackWF pack)
    (hc : ∀ p ∈ pack.pages, dec (enc p.image) = some p.image)
    (hl : ∀ p ∈ pack.pages, (enc p.image).length < 4294967296) :
    Pack.read dec (Pack.write_v2 enc pack) = some (pack, []) := by
  obtain ⟨hm, hp, hpg⟩ := hwf
  have hpages := readPages_write_v2 enc dec pack.pages [] hpg hc hl
  rw [List.append_nil] at hpages
  rw [Pack.write_v2]
  simp only [List.append_assoc]
  rw [Pack.read_magic]
  simp only [Pack.read_v2, readI32_writeI32 _ _ hm, readU32_writeU32 _ _ hp, hpages]

theorem pack_roundtrip_v1 (enc : Image → List Nat) (dec : List Nat → Option Image)
    (pack : Pack) (hwf : PackWF pack)
    (hc : ∀ p ∈ pack.pages, dec (enc p.image) = some p.image)
    (ht : ∀ p ∈ pack.pages, noEarlyTerminator END_OF_IMAGE (enc p.image))
    (hmask : pack.mask = Pack.DEFAULT_MASK)
    (hcount : pack.pages.length ≠ 1263557200) :
    Pack.read dec (Pack.write_v1 enc pack) = some (pack, []) := by
  obtain ⟨hm, hp, hpg⟩ := hwf
  have hpages := readPages_write_v1 enc dec pack.pages [] hpg hc ht
  rw [List.append_nil] at hpages
  have hne : leBytes4 pack.pages.length ≠ MAGIC_BYTES := fun he =>
    hcount (leBytes4_magic _ hp he)
  rw [Pack.write_v1]
  show Pack.read dec (leBytes4 pack.pages.length ++ _) = _
  rw [Pack.read_leBytes4 dec _ _ hne]
  show Pack.read_v1 dec (writeU32 pack.pages.length ++ _) = _
  simp only [Pack.read_v1, readU32_writeU32 _ _ hp, hpages]
  rw [← hmask]

theorem readU32_none (s : List Nat) (h : s.length < 4) : readU32 s = none := by
  match s with
  | [] => rfl
  | [_] => rfl
  | [_, _] => rfl
  | [_, _, _] => rfl
  | _ :: _ :: _ :: _ :: _ => exact absurd h (by simp)

/-- C1: for every well-formed Pack, reading back the bytes written by
`Pack::write_with` returns an equal Pack, for the V2 variant always, and for
the V1 variant whenever the external image codec round-trips, the encoded
image payloads do not contain an early terminator pattern, the pack mask is
the default (as every pack built from pages by `Pack::new` has), and the page
count's little-endian bytes do not spell the magic bytes. -/
theorem pack_roundtrip (enc : Image → List Nat) (dec : List Nat → Option Image)
    (pack : Pack) (hwf : PackWF pack)
    (hc : ∀ p ∈ pack.pages, dec (enc p.image) = some p.image)
    (hl : ∀ p ∈ pack.pages, (enc p.image).length < 4294967296) :
    Pack.read dec (Pack.write_with enc pack FormatVersion.V2) = some (pack, []) ∧
    ((∀ p ∈ pack.pages, noEarlyTerminator END_OF_IMAGE (enc p.image)) →
      pack.mask = Pack.DEFAULT_MASK → pack.pages.length ≠ 1263557200 →
      Pack.read dec (Pack.write_with enc pack FormatVersion.V1) = some (pack, [])) :=
  ⟨pack_roundtrip_v2 enc dec pack hwf hc hl,
   fun ht hmask hcount => pack_roundtrip_v1 enc dec pack hwf hc ht hmask hcount⟩

theorem pack_roundtrip_witness :
    Pack.read decTest (Pack.write_with encTest pack1 FormatVersion.V2) = some (pack1, []) ∧
    Pack.read decTest (Pack.write_with encTest pack1 FormatVersion.V1) = some (pack1, []) := by
  have hwf : PackWF pack1 := by unfold PackWF PageWF EntryWF I32Range; decide
  have hc : ∀ p ∈ pack1.pages, decTest (encTest p.image) = some p.image := by decide
  have hl : ∀ p ∈ pack1.pages, (encTest p.image).length < 4294967296 := by decide
  have ht : ∀ p ∈ pack1.pages, noEarlyTerminator END_OF_IMAGE (encTest p.image) := by
    unfold noEarlyTerminator; decide
  have h := pack_roundtrip encTest decTest pack1 hwf hc hl
  exact ⟨h.1, h.2 ht (by decide) (by decide)⟩

/-- C9: `read_until_pattern` on `[0x01, 0x02]` followed by the terminator
returns exactly `[0x01, 0x02]`; in general, whenever the terminator does not
occur early in the scanned bytes, scanning `v ++ pat ++ r` returns `v` and
leaves `r` unconsumed — the bytes preceding the first buffer position whose
suffix is the pattern. -/
theorem read_until_pattern_c9 :
    read_until_pattern END_OF_IMAGE [1, 2, 239, 190, 173, 222] = some ([1, 2], []) ∧
    ∀ (pat v r : List Nat), noEarlyTerminator pat v →
      read_until_pattern pat (v ++ (pat ++ r)) = some (v, r) :=
  ⟨by decide, fun pat v r h => read_until_pattern_complete pat v r h⟩

theorem read_until_pattern_c9_witness :
    read_until_pattern END_OF_IMAGE ([1, 2] ++ (END_OF_IMAGE ++ [7])) = some ([1, 2], [7]) :=
  read_until_pattern_c9.2 END_OF_IMAGE [1, 2] [7] (by unfold noEarlyTerminator; decide)

/-- C2 (amended): `EntryConfig::into_entry` rejects with `SubImageTooBig`
exactly when `size` is zero in BOTH axes (`size == UVec2::ZERO`) or `pos +
size` (wrapping u32 addition) exceeds the atlas dimensions in either axis; in
particular `pos + size` equal to the atlas size is accepted and greater is
rejected, but `size = (0, n)` with `n > 0` is NOT rejected. -/
theorem into_entry_subimage_iff (c : EntryConfig) (name : List Nat) (image : Image) :
    (∃ n sz asz, c.into_entry name image = Except.error (ToolError.SubImageTooBig n sz asz)) ↔
    (c.size = (0, 0) ∨ image.width < u32add c.pos.1 c.size.1 ∨
      image.height < u32add c.pos.2 c.size.2) := by
  simp only [EntryConfig.into_entry]
  split_ifs with h1 h2
  · exact ⟨fun _ => h1, fun _ => ⟨name, c.size, (image.width, image.height), rfl⟩⟩
  · simp only [iff_false, h1]
    rintro ⟨n, sz, asz, he⟩
    simp at he
  · simp only [iff_false, h1]
    rintro ⟨n, sz, asz, he⟩
    simp at he

/-- C2 counterexample: a config entry with `size = (0, 1)` on a 1×1 atlas is
accepted by `into_entry`, not rejected as `SubImageTooBig`. -/
theorem into_entry_zero_width_accepted :
    EntryConfig.into_entry ⟨(0, 0), (0, 1), none⟩ [] (Image.fromPixel 1 1 ⟨0, 0, 0, 0⟩) =
      Except.ok ⟨[], 0, 0, 0, 1, 0, 0, 0, 1⟩ := by decide

/-- C3: the validator accepts a config whose frame violates the Entry
invariant `frame_offset + size ≤ frame_size` (it checks
`size ≤ frame_offset + frame_size` instead), and `Entry::get_image` then
panics on the accepted entry (`copy_from(..).unwrap()` fails, modelled as
`none`). -/
theorem into_entry_accepts_frame_violation :
    EntryConfig.into_entry ⟨(0, 0), (6, 6), some ⟨(5, 5), (6, 6)⟩⟩ []
        (Image.fromPixel 6 6 ⟨0, 0, 0, 0⟩) =
      Except.ok ⟨[], 0, 0, 6, 6, 5, 5, 6, 6⟩ ∧
    ¬ EntryValid ⟨[], 0, 0, 6, 6, 5, 5, 6, 6⟩ (Image.fromPixel 6 6 ⟨0, 0, 0, 0⟩) ∧
    Entry.get_image ⟨[], 0, 0, 6, 6, 5, 5, 6, 6⟩ (Image.fromPixel 6 6 ⟨0, 0, 0, 0⟩) = none := by
  refine ⟨by decide, ?_, by decide⟩
  unfold EntryValid
  decide

/-- C5 (amended): `read_string` fails when fewer than four header bytes
remain; after reading the `u32` length it reads at most that many bytes,
silently stopping at end of stream — when the declared length exceeds the
remaining bytes it returns all remaining bytes rather than failing — and
fails only when the bytes read are not valid UTF-8; otherwise it returns
exactly the declared number of bytes. -/
theorem read_string_behavior (s : List Nat) :
    (s.length < 4 → read_string s = none) ∧
    ∀ len r, readU32 s = some (len, r) →
      (r.length < len →
        read_string s = if isValidUtf8 r then some (r, []) else none) ∧
      (len ≤ r.length →
        read_string s = (if isValidUtf8 (r.take len) then some (r.take len, r.drop len) else none) ∧
        (r.take len).length = len) := by
  constructor
  · intro h
    rw [read_string, readU32_none s h]
  · intro len r h
    constructor
    · intro hlt
      simp only [read_string, h, List.take_of_length_le (Nat.le_of_lt hlt),
        List.drop_eq_nil_of_le (Nat.le_of_lt hlt)]
    · intro hle
      refine ⟨by simp only [read_string, h], ?_⟩
      simp [List.length_take, Nat.min_eq_left hle]

/-- C5 counterexample: a declared length of 1 with zero bytes remaining
succeeds with the empty string instead of failing. -/
theorem read_string_truncation_counterexample :
    read_string [1, 0, 0, 0] = some ([], []) := by decide

theorem read_string_behavior_witness :
    read_string [5, 0, 0, 0, 97, 98] = some ([97, 98], []) := by
  have h := ((read_string_behavior [5, 0, 0, 0, 97, 98]).2 5 [97, 98] (by decide)).1 (by decide)
  simpa using h

/-- C7: `EntryConfig::from_entry` omits the frame fields for an entry whose
frame offset equals its atlas position even though the frame size differs
from the entry size, i.e. for a non-default frame — the code emits the frame
only when `frame_offset != pos && frame_size != size`. -/
theorem from_entry_drops_nondefault_frame :
    (EntryConfig.from_entry ⟨[], 0, 0, 4, 4, 0, 0, 10, 10⟩).2.frame = none ∧
    ((10, 10) : Nat × Nat) ≠ ((4, 4) : Nat × Nat) := by decide

/-- C10: `Page::get_entry_image` returns `Some` of the composed sprite
bitmap exactly when the index is in range, and `None` (no failure) when the
index is out of range. -/
theorem get_entry_image_spec (p : Page) (i : Nat) :
    (∀ h : i < p.entries.length,
      p.get_entry_image i = some ((p.entries.get ⟨i, h⟩).get_image p.image)) ∧
    (p.entries.length ≤ i → p.get_entry_image i = none) := by
  constructor
  · intro h
    rw [Page.get_entry_image, List.getElem?_eq_getElem h]
    simp [List.get_eq_getElem]
  · intro h
    rw [Page.get_entry_image, List.getElem?_eq_none h]
    rfl

theorem get_entry_image_spec_witness :
    page1.get_entry_image 0 = some (entry1.get_image page1.image) ∧
    page1.get_entry_image 1 = none := by
  refine ⟨?_, (get_entry_image_spec page1 1).2 (by decide)⟩
  have h := (get_entry_image_spec page1 0).1 (by decide)
  simpa [page1] using h

theorem index_decomp (w x y : Nat) (hx : x < w) :
    (y * w + x) % w = x ∧ (y * w + x) / w = y := by
  have hw : 0 < w := by omega
  constructor
  · rw [Nat.add_comm, Nat.add_mul_mod_self_right, Nat.mod_eq_of_lt hx]
  · rw [Nat.add_comm, Nat.add_mul_div_right _ _ hw, Nat.div_eq_of_lt hx]
    omega

theorem getPixel_rangeMap (w h : Nat) (f : Nat → Rgba) (x y : Nat) (hx : x < w) (hy : y < h) :
    Image.getPixel ⟨w, h, (List.range (w * h)).map f⟩ x y = f (y * w + x) := by
  have hlt : y * w + x < w * h := by
    have h1 : y * w + x < (y + 1) * w := by
      rw [Nat.succ_mul]; omega
    have h2 : (y + 1) * w ≤ h * w := Nat.mul_le_mul_right w hy
    rw [Nat.mul_comm w h]
    omega
  unfold Image.getPixel
  rw [List.getD_eq_getElem?_getD, List.getElem?_map]
  simp [List.getElem?_range, hlt]

theorem getPixel_fromPixel (w h : Nat) (c : Rgba) (x y : Nat) (hx : x < w) (hy : y < h) :
    (Image.fromPixel w h c).getPixel x y = c := by
  have hlt : y * w + x < w * h := by
    have h1 : y * w + x < (y + 1) * w := by
      rw [Nat.succ_mul]; omega
    have h2 : (y + 1) * w ≤ h * w := Nat.mul_le_mul_right w hy
    rw [Nat.mul_comm w h]
    omega
  unfold Image.fromPixel Image.getPixel
  rw [List.getD_eq_getElem?_getD]
  simp [List.getElem?_replicate, hlt]

theorem cropImm_of_le (base : Image) (x y w h : Nat)
    (hx : x + w ≤ base.width) (hy : y + h ≤ base.height) :
    cropImm base x y w h =
      ⟨w, h, (List.range (w * h)).map fun i => base.getPixel (x + i % w) (y + i / w)⟩ := by
  have h1 : min x base.width = x := Nat.min_eq_left (by omega)
  have h2 : min y base.height = y := Nat.min_eq_left (by omega)
  simp only [cropImm, h1, h2]
  have h3 : min w (base.width - x) = w := Nat.min_eq_left (by omega)
  have h4 : min h (base.height - y) = h := Nat.min_eq_left (by omega)
  simp only [h3, h4]

theorem copyFrom_mk (tw th : Nat) (c : Rgba) (w h : Nat) (data : List Rgba) (x y : Nat)
    (hx : w + x ≤ tw) (hy : h + y ≤ th) :
    Image.copyFrom ⟨tw, th, List.replicate (tw * th) c⟩ ⟨w, h, data⟩ x y =
      some ⟨tw, th, (List.range (tw * th)).map fun i =>
        if x ≤ i % tw ∧ i % tw < x + w ∧ y ≤ i / tw ∧ i / tw < y + h then
          Image.getPixel ⟨w, h, data⟩ (i % tw - x) (i / tw - y)
        else Image.getPixel ⟨tw, th, List.replicate (tw * th) c⟩ (i % tw) (i / tw)⟩ := by
  unfold Image.copyFrom
  rw [if_pos ⟨hx, hy⟩]

/-- C4: for a validated entry whose packed rectangle lies inside the atlas,
`Entry::get_image` succeeds and returns a `total_width × total_height` bitmap
that copies the atlas rectangle `[pos, pos + size)` into
`[frame_offset, frame_offset + size)` and is fully transparent elsewhere. -/
theorem get_image_spec (e : Entry) (base : Image) (hv : EntryValid e base) :
    ∃ out, e.get_image base = some out ∧
      out.width = e.total_width ∧ out.height = e.total_height ∧
      ∀ x y, x < e.total_width → y < e.total_height →
        out.getPixel x y =
          if e.x_offset ≤ x ∧ x < e.x_offset + e.width ∧
              e.y_offset ≤ y ∧ y < e.y_offset + e.height then
            base.getPixel (e.x_pos + (x - e.x_offset)) (e.y_pos + (y - e.y_offset))
          else ⟨0, 0, 0, 0⟩ := by
  obtain ⟨hw, hh, hxb, hyb, htw, hth, hxf, hyf⟩ := hv
  unfold Entry.get_image
  rw [cropImm_of_le base _ _ _ _ hxb hyb]
  unfold Image.fromPixel
  rw [copyFrom_mk e.total_width e.total_height ⟨0, 0, 0, 0⟩ e.width e.height _
    e.x_offset e.y_offset (by omega) (by omega)]
  refine ⟨_, rfl, rfl, rfl, ?_⟩
  intro x y hx hy
  rw [getPixel_rangeMap _ _ _ _ _ hx hy]
  obtain ⟨hmod, hdiv⟩ := index_decomp e.total_width x y hx
  rw [hmod, hdiv]
  split_ifs with hc
  · obtain ⟨hc1, hc2, hc3, hc4⟩ := hc
    rw [getPixel_rangeMap _ _ _ _ _ (by omega) (by omega)]
    obtain ⟨hmod2, hdiv2⟩ := index_decomp e.width (x - e.x_offset) (y - e.y_offset) (by omega)
    rw [hmod2, hdiv2]
  · exact getPixel_fromPixel _ _ _ _ _ hx hy

theorem get_image_spec_witness : Entry.get_image entry4 atlas4 ≠ none := by
  have hv : EntryValid entry4 atlas4 := by unfold EntryValid; decide
  obtain ⟨out, hout, -⟩ := get_image_spec entry4 atlas4 hv
  rw [hout]
  simp

/-- C6: `Pack::read` on a stream of at least four bytes decodes the rest as
the Current (V2) variant exactly when the first four bytes are the magic
bytes; any other leading four bytes are not discarded: the whole stream,
those four bytes included, is decoded as Legacy (V1), so they become the
first four bytes of the 32-bit page count. -/
theorem pack_read_dispatch (dec : List Nat → Option Image) (s : List Nat) (h4 : 4 ≤ s.length) :
    (s.take 4 = MAGIC_BYTES → Pack.read dec s = Pack.read_v2 dec (s.drop 4)) ∧
    (s.take 4 ≠ MAGIC_BYTES →
      Pack.read dec s = Pack.read_v1 dec s ∧
      ∃ b0 b1 b2 b3 rest, s = b0 :: b1 :: b2 :: b3 :: rest ∧
        Pack.read dec s = Option.map (fun pr => (⟨Pack.DEFAULT_MASK, pr.1⟩, pr.2))
          (readPages (Page.read_v1 dec) (leU32 b0 b1 b2 b3) rest)) := by
  match s, h4 with
  | b0 :: b1 :: b2 :: b3 :: rest, _ =>
    have hlen : ¬ (b0 :: b1 :: b2 :: b3 :: rest).length < 4 := by simp
    constructor
    · intro hm
      rw [Pack.read, if_neg hlen]
      simp only [hm]
      simp
    · intro hm
      have hread : Pack.read dec (b0 :: b1 :: b2 :: b3 :: rest) =
          Pack.read_v1 dec (b0 :: b1 :: b2 :: b3 :: rest) := by
        rw [Pack.read, if_neg hlen]
        simp only [if_neg hm]
        rfl
      refine ⟨hread, b0, b1, b2, b3, rest, rfl, ?_⟩
      rw [hread]
      have hu : readU32 (b0 :: b1 :: b2 :: b3 :: rest) = some (leU32 b0 b1 b2 b3, rest) := rfl
      cases hrp : readPages (Page.read_v1 dec) (leU32 b0 b1 b2 b3) rest with
      | none => simp only [Pack.read_v1, hu, hrp, Option.map_none']
      | some pr =>
        obtain ⟨ps, r2⟩ := pr
        simp only [Pack.read_v1, hu, hrp, Option.map_some']

theorem pack_read_dispatch_witness :
    Pack.read decTest [1, 0, 0, 0] = Pack.read_v1 decTest [1, 0, 0, 0] :=
  (((pack_read_dispatch decTest [1, 0, 0, 0] (by decide)).2) (by decide)).1

/-- C8: a successfully decoded pack has mask `DEFAULT_MASK = 1` whenever the
stream was decoded as Legacy (its first four bytes are not the magic bytes),
and has exactly the signed little-endian 32-bit integer stored right after
the magic bytes (negative values included) whenever it was decoded as
Current. -/
theorem pack_mask_spec (dec : List Nat → Option Image) (s : List Nat) (pack : Pack)
    (r : List Nat) (h : Pack.read dec s = some (pack, r)) :
    (s.take 4 = MAGIC_BYTES → ∃ b0 b1 b2 b3 rest, s.drop 4 = b0 :: b1 :: b2 :: b3 :: rest ∧
      pack.mask = i32OfU32 (leU32 b0 b1 b2 b3)) ∧
    (s.take 4 ≠ MAGIC_BYTES → pack.mask = Pack.DEFAULT_MASK) := by
  by_cases hlen : s.length < 4
  · rw [Pack.read, if_pos hlen] at h
    exact absurd h (by simp)
  by_cases hm : s.take 4 = MAGIC_BYTES
  · refine ⟨fun _ => ?_, fun hm2 => absurd hm hm2⟩
    rw [Pack.read, if_neg hlen] at h
    simp only [hm, if_true, if_pos] at h
    rcases hd : s.drop 4 with _ | ⟨b0, _ | ⟨b1, _ | ⟨b2, _ | ⟨b3, rest⟩⟩⟩⟩ <;> rw [hd] at h
    · simp [Pack.read_v2, readI32, readU32] at h
    · simp [Pack.read_v2, readI32, readU32] at h
    · simp [Pack.read_v2, readI32, readU32] at h
    · simp [Pack.read_v2, readI32, readU32] at h
    · refine ⟨b0, b1, b2, b3, rest, rfl, ?_⟩
      simp only [Pack.read_v2] at h
      have hi : readI32 (b0 :: b1 :: b2 :: b3 :: rest) =
          some (i32OfU32 (leU32 b0 b1 b2 b3), rest) := rfl
      rw [hi] at h
      cases hu : readU32 rest with
      | none =>
        simp only [hu] at h
        exact Option.noConfusion h
      | some p1 =>
        simp only [hu] at h
        cases hrp : readPages (Page.read_v2 dec) p1.1 p1.2 with
        | none =>
          simp only [hrp] at h
          exact Option.noConfusion h
        | some p2 =>
          simp only [hrp] at h
          simp only [Option.some.injEq, Prod.mk.injEq] at h
          rw [← h.1]
  · refine ⟨fun hm2 => absurd hm2 hm, fun _ => ?_⟩
    rw [Pack.read, if_neg hlen] at h
    simp only [if_neg hm] at h
    simp only [Pack.read_v1] at h
    cases hu : readU32 (s.take 4 ++ s.drop 4) with
    | none =>
      simp only [hu] at h
      exact Option.noConfusion h
    | some p1 =>
      simp only [hu] at h
      cases hrp : readPages (Page.read_v1 dec) p1.1 p1.2 with
      | none =>
        simp only [hrp] at h
        exact Option.noConfusion h
      | some p2 =>
        simp only [hrp] at h
        simp only [Option.some.injEq, Prod.mk.injEq] at h
        rw [← h.1]

theorem pack_mask_spec_witness :
    ∃ b0 b1 b2 b3 rest,
      (MAGIC_BYTES ++ [255, 255, 255, 255] ++ [0, 0, 0, 0]).drop 4 = b0 :: b1 :: b2 :: b3 :: rest ∧
      (Pack.mk (-1) []).mask = i32OfU32 (leU32 b0 b1 b2 b3) :=
  (pack_mask_spec decTest (MAGIC_BYTES ++ [255, 255, 255, 255] ++ [0, 0, 0, 0])
    ⟨-1, []⟩ [] (by decide)).1 (by decide)
